import Mathlib

/-!
Verification development for the incremental TMDB ingestion engine
(scripts/fetch_TMDB_API/fetch_API_TMDB.py and its per-entity subclasses).

The Python code is shallowly embedded: JSON values become an inductive
type, NDJSON store lines become optional JSON objects (a missing value
models a line that fails json.loads), the request executor becomes a
recursive function over an explicit list of per-attempt HTTP responses,
and the fetcher run loop becomes a pure function over an abstract fetch
outcome map.  Dates are modelled as integers (ordinal days); the strptime
date parser of the standard library is a parameter of the scan functions.
Thread scheduling is linearised: the concurrent fetch loop processes the
deduplicated target list in order, which is sound for the properties
proved here because every target is submitted exactly once and all the
counters and sets involved are order independent.
-/

/-- JSON values as produced by json.loads.  Python keeps ints and floats
distinct after parsing, which matters because the code tests
isinstance(x, int); the two cases are therefore separate constructors. -/
inductive JVal where
  | null
  | bool (b : Bool)
  | int (n : Int)
  | num (q : ℚ)
  | str (s : String)
  | arr (xs : List JVal)
  | obj (kvs : List (String × JVal))

/-- A parsed JSON object (a Python dict): association list of fields. -/
abbrev Jobj := List (String × JVal)

/-- One line of an NDJSON file: a parsed object, or a line on which
json.loads raised (modelled as the missing value). -/
abbrev SrcLine := Option Jobj

/-- Python d.get(k) on a dict, before the default is applied. -/
def olookup (o : Jobj) (k : String) : Option JVal := List.lookup k o

/-- Python d.get(k): absent fields give None, serialised as JSON null. -/
def oget (o : Jobj) (k : String) : JVal := (olookup o k).getD JVal.null

/-- The isinstance(x, int) test applied to an optional field value. -/
def asInt : Option JVal → Option Int
  | some (JVal.int n) => some n
  | _ => none

/-- Field used to recognise a dict item inside a nested list. -/
def JVal.isObjB : JVal → Bool
  | JVal.obj _ => true
  | _ => false

/-- Embedding of select_list_of_dicts (fetch_API_TMDB.py): given any raw
value and an allow-list of sub-keys, keep only the dict items of the list
and narrow each to the allow-listed keys, reading absent keys as null.
A non-list argument yields the empty list. -/
def select_list_of_dicts (lst : JVal) (keys : List String) : List JVal :=
  match lst with
  | JVal.arr items =>
      items.filterMap fun it =>
        match it with
        | JVal.obj kvs => some (JVal.obj (keys.map fun k => (k, oget kvs k)))
        | _ => none
  | _ => []

/-- The top-level fields of the movie projection that are copied through
d.get directly (no nested-list narrowing). -/
def movieScalarFields : List String :=
  ["budget", "id", "imdb_id", "original_language", "original_title",
   "overview", "popularity", "release_date", "revenue", "runtime",
   "status", "tagline", "title", "vote_average", "vote_count"]

/-- Embedding of project_movie_fields (fetch_movie_details.py). -/
def project_movie_fields (d : Jobj) : Jobj :=
  [("budget", oget d "budget"),
   ("genres", JVal.arr (select_list_of_dicts (oget d "genres") ["id", "name"])),
   ("id", oget d "id"),
   ("imdb_id", oget d "imdb_id"),
   ("original_language", oget d "original_language"),
   ("original_title", oget d "original_title"),
   ("overview", oget d "overview"),
   ("popularity", oget d "popularity"),
   ("production_companies", JVal.arr (select_list_of_dicts (oget d "production_companies") ["id", "name", "origin_country"])),
   ("production_countries", JVal.arr (select_list_of_dicts (oget d "production_countries") ["iso_3166_1", "name"])),
   ("release_date", oget d "release_date"),
   ("revenue", oget d "revenue"),
   ("runtime", oget d "runtime"),
   ("spoken_languages", JVal.arr (select_list_of_dicts (oget d "spoken_languages") ["english_name", "iso_639_1", "name"])),
   ("status", oget d "status"),
   ("tagline", oget d "tagline"),
   ("title", oget d "title"),
   ("vote_average", oget d "vote_average"),
   ("vote_count", oget d "vote_count")]

/-! Request executor: embedding of tmdb_request (fetch_API_TMDB.py).
The network is abstracted as the list of responses the server would give
to the successive attempts, and random.random() as the list of jitter
draws; sleeps performed by time.sleep are recorded in order. -/

/-- Module constant MAX_RETRIES_PER_ID of fetch_API_TMDB.py. -/
def MAX_RETRIES_PER_ID : Nat := 6

/-- Module constant MAX_BACKOFF_SECONDS of fetch_API_TMDB.py. -/
def MAX_BACKOFF_SECONDS : ℚ := 60

/-- Outcome of one HTTP attempt, as classified by the except clauses of
tmdb_request: a JSON body, an HTTPError with a status code and an
optional Retry-After header (the inner Option is the result of float()
on the header text, missing when that parse raises ValueError), a
URLError, or any other exception. -/
inductive Resp where
  | ok (body : Jobj)
  | http (code : Nat) (retryAfter : Option (Option ℚ))
  | urlError
  | exc

/-- Result of tmdb_request: returned JSON (if any), error-counter keys
incremented, sleeps performed, total attempts made, and whether the 401
sys.exit path was taken. -/
structure ReqOut where
  result : Option Jobj
  counted : List String
  sleeps : List ℚ
  attempts : Nat
  fatal : Bool

/-- The backoff update of tmdb_request:
backoff = min(MAX_BACKOFF_SECONDS, backoff * (1.5 + random.random() * 0.5)). -/
def backoffNext (b r : ℚ) : ℚ := min MAX_BACKOFF_SECONDS (b * (3/2 + r * (1/2)))

/-- The while-True retry loop of tmdb_request, with the attempt counter
and current backoff threaded explicitly. -/
def tmdbLoop : Nat → ℚ → List Resp → List ℚ → ReqOut
  | attempts, _, [], _ => ⟨none, [], [], attempts, false⟩
  | attempts, b, resp :: rest, rands =>
    let a := attempts + 1
    match resp with
    | Resp.ok body => ⟨some body, [], [], a, false⟩
    | Resp.http code ra =>
      if code = 404 then ⟨none, ["404"], [], a, false⟩
      else if code = 401 then ⟨none, [], [], a, true⟩
      else if code = 429 then
        let w : ℚ :=
          match ra with
          | some (some q) => q
          | some none => b
          | none => b
        let s := min w MAX_BACKOFF_SECONDS
        let b2 := backoffNext b (rands.headD 0)
        if a < MAX_RETRIES_PER_ID then
          let out := tmdbLoop a b2 rest rands.tail
          ⟨out.result, out.counted, s :: out.sleeps, out.attempts, out.fatal⟩
        else ⟨none, ["HTTP_429_exceeded_retries"], [s], a, false⟩
      else ⟨none, ["HTTP_" ++ toString code], [], a, false⟩
    | Resp.urlError =>
      if a < MAX_RETRIES_PER_ID then
        let s := min b MAX_BACKOFF_SECONDS
        let b2 := backoffNext b (rands.headD 0)
        let out := tmdbLoop a b2 rest rands.tail
        ⟨out.result, out.counted, s :: out.sleeps, out.attempts, out.fatal⟩
      else ⟨none, ["URLError"], [], a, false⟩
    | Resp.exc =>
      if a < MAX_RETRIES_PER_ID then
        let s := min b MAX_BACKOFF_SECONDS
        let b2 := backoffNext b (rands.headD 0)
        let out := tmdbLoop a b2 rest rands.tail
        ⟨out.result, out.counted, s :: out.sleeps, out.attempts, out.fatal⟩
      else ⟨none, ["Exception"], [], a, false⟩

/-- Embedding of tmdb_request: the loop starts with attempts = 0 and
backoff = 0.2. -/
def tmdb_request (resps : List Resp) (rands : List ℚ) : ReqOut :=
  tmdbLoop 0 (1/5) resps rands

/-! Existing-store scan.  Both scan_existing_ndjson (fetch_API_TMDB.py)
and the status-keyed scan of TVSeries_details.py share one streaming
loop: skip unparseable lines, require an int id field, collect the set
of ids, count kept lines, and flag ids due for refresh according to a
per-record decision.  The loop is factored over that decision. -/

/-- Identity key of a store line: the id field when it is an int. -/
def lineKey (idf : String) : SrcLine → Option Int
  | none => none
  | some o => asInt (olookup o idf)

/-- All identity keys present in a store, in line order. -/
def storeKeys (idf : String) (store : List SrcLine) : List Int :=
  store.filterMap (lineKey idf)

/-- Core invariant of the store: no two lines share an identity key. -/
def KeyUnique (idf : String) (store : List SrcLine) : Prop :=
  (storeKeys idf store).Nodup

/-- Python set.add: membership-tested insertion. -/
def insertSet (s : List Int) (x : Int) : List Int :=
  if x ∈ s then s else s ++ [x]

/-- Accumulated result of the existing-store scan: the set of ids, the
set of ids flagged for refresh, and the count of kept lines. -/
structure ScanOut where
  allIds : List Int
  refreshIds : List Int
  keptLines : Nat

/-- One iteration of the scan loop: unparseable lines and lines without
an int id are skipped; otherwise the id joins the id set, the line is
counted, and the id is flagged when the refresh decision says so. -/
def scanStep (idf : String) (due : Jobj → Bool) (acc : ScanOut) : SrcLine → ScanOut
  | none => acc
  | some o =>
    match asInt (olookup o idf) with
    | none => acc
    | some mid =>
      if due o then ⟨insertSet acc.allIds mid, insertSet acc.refreshIds mid, acc.keptLines + 1⟩
      else ⟨insertSet acc.allIds mid, acc.refreshIds, acc.keptLines + 1⟩

/-- The scan loop over the store lines. -/
def scanLoop (idf : String) (due : Jobj → Bool) : ScanOut → List SrcLine → ScanOut
  | acc, [] => acc
  | acc, l :: rest => scanLoop idf due (scanStep idf due acc l) rest

/-- A full scan starting from empty accumulators. -/
def scanCore (idf : String) (due : Jobj → Bool) (store : List SrcLine) : ScanOut :=
  scanLoop idf due ⟨[], [], 0⟩ store

/-- Embedding of parse_date_safe applied to d.get(field): only a
non-empty string is handed to the date parser pd (which stands for
datetime.strptime with the ISO day format); anything else is None. -/
def parse_date_safe (pd : String → Option Int) : Option JVal → Option Int
  | some (JVal.str s) => if s = "" then none else pd s
  | _ => none

/-- The fixed time-window refresh decision of scan_existing_ndjson: only
active when both window_days and date_field are configured; due when the
record date parses and today - window_days <= date <= today. -/
def lineDue (wd : Option Nat) (df : Option String) (today : Int)
    (pd : String → Option Int) (o : Jobj) : Bool :=
  match wd, df with
  | some w, some f =>
    match parse_date_safe pd (olookup o f) with
    | some dt => decide (today - (w : Int) ≤ dt ∧ dt ≤ today)
    | none => false
  | _, _ => false

/-- Embedding of scan_existing_ndjson (fetch_API_TMDB.py). -/
def scan_existing_ndjson (idf : String) (wd : Option Nat) (df : Option String)
    (today : Int) (pd : String → Option Int) (store : List SrcLine) : ScanOut :=
  scanCore idf (lineDue wd df today pd) store

/-- A refresh-policy entry of TVSeries_details.py: refresh always, or
within a window of the given number of days. -/
inductive RPolicy where
  | always
  | window (n : Nat)

/-- The STATUS_REFRESH_POLICY table of
TVSeriesDetailsFetcher._scan_existing_custom_refresh. -/
def STATUS_REFRESH_POLICY : List (String × RPolicy) :=
  [("Returning Series", RPolicy.always),
   ("In Production", RPolicy.window 30),
   ("Pilot", RPolicy.window 90),
   ("Planned", RPolicy.window 90),
   ("Canceled", RPolicy.window 365),
   ("Ended", RPolicy.window 180)]

/-- The DEFAULT_WINDOW constant of the same method. -/
def DEFAULT_WINDOW : Nat := 60

/-- Policy looked up from a record: obj.get("status") or "" followed by
STATUS_REFRESH_POLICY.get(status, DEFAULT_WINDOW).  Every non-string
status value (and the empty string) misses the table and falls back to
the default window. -/
def tvPolicyOf (o : Jobj) : RPolicy :=
  match olookup o "status" with
  | some (JVal.str s) => (STATUS_REFRESH_POLICY.lookup s).getD (RPolicy.window DEFAULT_WINDOW)
  | _ => RPolicy.window DEFAULT_WINDOW

/-- The in_window helper of _scan_existing_custom_refresh: false for a
missing, empty or non-string last_air_date and for an unparseable date,
else the inclusive window test. -/
def tv_in_window (today : Int) (pd : String → Option Int)
    (v : Option JVal) (days : Nat) : Bool :=
  match v with
  | some (JVal.str s) =>
    if s = "" then false
    else
      match pd s with
      | some lad => decide (today - (days : Int) ≤ lad ∧ lad ≤ today)
      | none => false
  | _ => false

/-- The per-record refresh decision of _scan_existing_custom_refresh. -/
def tvLineDue (today : Int) (pd : String → Option Int) (o : Jobj) : Bool :=
  match tvPolicyOf o with
  | RPolicy.always => true
  | RPolicy.window n => tv_in_window today pd (olookup o "last_air_date") n

/-- Embedding of TVSeriesDetailsFetcher._scan_existing_custom_refresh
(TVSeries_details.py). -/
def scan_existing_custom_refresh (today : Int) (pd : String → Option Int)
    (store : List SrcLine) : ScanOut :=
  scanCore "id" (tvLineDue today pd) store

/-! The generic fetcher run (TMDBFetcher.run in fetch_API_TMDB.py). -/

/-- Outcome of fetching one target through tmdb_request: the returned
JSON body, if any, and the error-counter keys it incremented. -/
structure FetchOut where
  data : Option Jobj
  errs : List String

/-- Embedding of iter_ndjson_ids: unique int ids of the input file, in
first-occurrence order; unparseable lines and lines without a usable id
are skipped (they are only reported in a warning message). -/
def iterIdsLoop (idf : String) (seen : List Int) : List SrcLine → List Int
  | [] => []
  | none :: rest => iterIdsLoop idf seen rest
  | some o :: rest =>
    match asInt (olookup o idf) with
    | some mid =>
      if mid ∈ seen then iterIdsLoop idf seen rest
      else mid :: iterIdsLoop idf (mid :: seen) rest
    | none => iterIdsLoop idf seen rest

/-- Embedding of iter_ndjson_ids (fetch_API_TMDB.py). -/
def iterNdjsonIds (idf : String) (input : List SrcLine) : List Int :=
  iterIdsLoop idf [] input

/-- New-id pass of TMDBFetcher.run step 3: candidate ids absent from the
existing store, in candidate order. -/
def newTargets (existing : List Int) : List Int → List Int
  | [] => []
  | mid :: rest =>
    if mid ∈ existing then newTargets existing rest
    else mid :: newTargets existing rest

/-- Refresh pass of TMDBFetcher.run step 3: refresh ids are appended to
the target list unless already present. -/
def addRefreshLoop (acc : List Int) : List Int → List Int
  | [] => acc
  | mid :: rest =>
    if mid ∈ acc then addRefreshLoop acc rest
    else addRefreshLoop (acc ++ [mid]) rest

/-- Deduplication pass of TMDBFetcher.run step 3. -/
def dedupLoop (seen : List Int) : List Int → List Int
  | [] => []
  | mid :: rest =>
    if mid ∈ seen then dedupLoop seen rest
    else mid :: dedupLoop (mid :: seen) rest

/-- The deduplicated target list computed by TMDBFetcher.run: new
candidates first, then (when a refresh window is configured) the ids
flagged for refresh, deduplicated. -/
def runTargets (idf : String) (wd : Option Nat) (df : Option String)
    (today : Int) (pd : String → Option Int)
    (input : List SrcLine) (preStore : Option (List SrcLine)) : List Int :=
  let ids := iterNdjsonIds idf input
  let scan := scan_existing_ndjson idf wd df today pd (preStore.getD [])
  let t1 := newTargets scan.allIds ids
  let t2 := if wd.isSome then addRefreshLoop t1 scan.refreshIds else t1
  dedupLoop [] t2

/-- Retained-copy step of TMDBFetcher.run (step 4): stream the existing
store into the temp file, dropping unparseable lines and lines whose int
id is a target; returns the retained lines and the copied counter. -/
def copyRetained (idf : String) (ts : List Int) : List SrcLine → List SrcLine × Nat
  | [] => ([], 0)
  | none :: rest => copyRetained idf ts rest
  | some o :: rest =>
    match asInt (olookup o idf) with
    | some mid =>
      if mid ∈ ts then copyRetained idf ts rest
      else (some o :: (copyRetained idf ts rest).1, (copyRetained idf ts rest).2 + 1)
    | none => (some o :: (copyRetained idf ts rest).1, (copyRetained idf ts rest).2 + 1)

/-- Accumulated outcome of the concurrent fetch loop (step 5): lines
appended to the temp file, the ok / added / updated counters, and the
error-counter keys incremented by the fetches. -/
structure ProcOut where
  appended : List SrcLine
  ok : Nat
  added : Nat
  updated : Nat
  errs : List String

/-- The fetch loop of TMDBFetcher.run, linearised over the target list:
each target is fetched once; a successful fetch is projected and
appended, incrementing ok and one of added / updated depending on
whether the id pre-existed. -/
def processTargets (project : Jobj → Jobj) (fetch : Int → FetchOut)
    (existing : List Int) : List Int → ProcOut
  | [] => ⟨[], 0, 0, 0, []⟩
  | t :: ts =>
    let f := fetch t
    let rest := processTargets project fetch existing ts
    match f.data with
    | some d =>
      ⟨some (project d) :: rest.appended, rest.ok + 1,
       (if t ∈ existing then rest.added else rest.added + 1),
       (if t ∈ existing then rest.updated + 1 else rest.updated),
       f.errs ++ rest.errs⟩
    | none => ⟨rest.appended, rest.ok, rest.added, rest.updated, f.errs ++ rest.errs⟩

/-- Observable outcome of one run: the resulting store (missing when the
output file did not exist and was not created), the copied / ok / added /
updated counters, the reported total line count, the error-counter state,
and the summary lines appended to the run log as
(added, updated, total) triples. -/
structure RunOut where
  postStore : Option (List SrcLine)
  copied : Nat
  ok : Nat
  added : Nat
  updated : Nat
  totalLines : Nat
  errors : List String
  log : List (Nat × Nat × Nat)

/-- Embedding of TMDBFetcher.run (fetch_API_TMDB.py).  Returns the
missing value when the input file yields no ids (sys.exit path).  With
an empty target list the store is renamed to the temp path and back,
leaving its content unchanged, and a summary with added = 0 and
updated = 0 and the kept-line count is logged.  Otherwise the retained
lines are copied, each target fetched once, successful fetches appended,
and the temp file atomically replaces the store. -/
def genericRun (idf : String) (wd : Option Nat) (df : Option String)
    (today : Int) (pd : String → Option Int)
    (project : Jobj → Jobj) (fetch : Int → FetchOut)
    (input : List SrcLine) (preStore : Option (List SrcLine)) : Option RunOut :=
  let ids := iterNdjsonIds idf input
  if ids.isEmpty then none
  else
    let scan := scan_existing_ndjson idf wd df today pd (preStore.getD [])
    let targets := runTargets idf wd df today pd input preStore
    if targets.isEmpty then
      some ⟨preStore, 0, 0, 0, 0, scan.keptLines, [], [(0, 0, scan.keptLines)]⟩
    else
      let rc := copyRetained idf targets (preStore.getD [])
      let p := processTargets project fetch scan.allIds targets
      some ⟨some (rc.1 ++ p.appended), rc.2, p.ok, p.added, p.updated, rc.2 + p.ok, p.errs,
            [(p.added, p.updated, rc.2 + p.ok)]⟩

/-! Concrete inputs used by the witness instantiations below. -/

/-- A one-field record with id 3. -/
def wRec3 : Jobj := [("id", JVal.int 3)]

/-- A fetch map echoing the requested id as the payload id. -/
def wFetchEcho : Int → FetchOut := fun t => ⟨some [("id", JVal.int t)], []⟩

/-- A record with id 5 and a date field that parses to day 10. -/
def wRecD : Jobj := [("id", JVal.int 5), ("d", JVal.str "x")]

/-- A date parser mapping the string x to day 10. -/
def wPd : String → Option Int := fun s => if s = "x" then some 10 else none

/-- A fetch map that always fails with a 404 count. -/
def wFetch404 : Int → FetchOut := fun _ => ⟨none, ["404"]⟩

/-- The run outcome of fetching id 3 into an empty store. -/
def wOut1 : RunOut := ⟨some [some wRec3], 0, 1, 1, 0, 1, [], [(1, 0, 1)]⟩

/-- The run outcome of the single-target NotFound refresh scenario. -/
def wOutB : RunOut := ⟨some [], 0, 0, 0, 0, 0, ["404"], [(0, 0, 0)]⟩

/-- The run outcome of an empty-target run over a one-record store. -/
def wOutE : RunOut := ⟨some [some wRec3], 0, 0, 0, 0, 1, [], [(0, 0, 1)]⟩

/-- A record with id 7 and a date field that parses to day 95. -/
def wRec7 : Jobj := [("id", JVal.int 7), ("rd", JVal.str "y")]

/-- A date parser mapping the string y to day 95. -/
def wPd95 : String → Option Int := fun s => if s = "y" then some 95 else none

/-- A series record with id 9 and the always-refresh status. -/
def wRecTV : Jobj := [("id", JVal.int 9), ("status", JVal.str "Returning Series")]

/-! Helper lemmas about the embedded operations. -/

theorem insertSet_mem {s : List Int} {x y : Int} :
    x ∈ insertSet s y ↔ x = y ∨ x ∈ s := by
  unfold insertSet
  split
  · constructor
    · exact fun h => Or.inr h
    · rintro (rfl | h)
      · assumption
      · assumption
  · simp [or_comm]

theorem scanStep_none (idf : String) (due : Jobj → Bool) (acc : ScanOut) :
    scanStep idf due acc none = acc := rfl

theorem scanStep_some_eq (idf : String) (due : Jobj → Bool) (acc : ScanOut) (o : Jobj) :
    scanStep idf due acc (some o)
      = (match asInt (olookup o idf) with
         | none => acc
         | some mid =>
           if due o then
             (⟨insertSet acc.allIds mid, insertSet acc.refreshIds mid, acc.keptLines + 1⟩ : ScanOut)
           else ⟨insertSet acc.allIds mid, acc.refreshIds, acc.keptLines + 1⟩) := rfl

theorem scanStep_nokey (idf : String) (due : Jobj → Bool) (acc : ScanOut)
    (o : Jobj) (h : asInt (olookup o idf) = none) :
    scanStep idf due acc (some o) = acc := by
  rw [scanStep_some_eq, h]

theorem scanStep_due (idf : String) (due : Jobj → Bool) (acc : ScanOut)
    (o : Jobj) (k : Int) (h : asInt (olookup o idf) = some k) (hd : due o = true) :
    scanStep idf due acc (some o)
      = ⟨insertSet acc.allIds k, insertSet acc.refreshIds k, acc.keptLines + 1⟩ := by
  rw [scanStep_some_eq, h]
  simp only [hd, if_true]

theorem scanStep_notdue (idf : String) (due : Jobj → Bool) (acc : ScanOut)
    (o : Jobj) (k : Int) (h : asInt (olookup o idf) = some k) (hd : due o = false) :
    scanStep idf due acc (some o)
      = ⟨insertSet acc.allIds k, acc.refreshIds, acc.keptLines + 1⟩ := by
  rw [scanStep_some_eq, h]
  simp only [hd, Bool.false_eq_true, if_false]

theorem scanStep_allIds_mem (idf : String) (due : Jobj → Bool) (x : Int)
    (acc : ScanOut) (l : SrcLine) :
    x ∈ (scanStep idf due acc l).allIds ↔
      x ∈ acc.allIds ∨ ∃ o, l = some o ∧ asInt (olookup o idf) = some x := by
  match l with
  | none =>
    rw [scanStep_none]
    simp
  | some o0 =>
    rcases hk0 : asInt (olookup o0 idf) with _ | k0
    · rw [scanStep_nokey idf due acc o0 hk0]
      constructor
      · exact fun h => Or.inl h
      · rintro (h | ⟨o, ho, hk⟩)
        · exact h
        · rw [Option.some.injEq] at ho
          rw [← ho, hk0] at hk
          cases hk
    · have hmem : x ∈ (scanStep idf due acc (some o0)).allIds ↔
          x ∈ insertSet acc.allIds k0 := by
        cases hd : due o0
        · rw [scanStep_notdue idf due acc o0 k0 hk0 hd]
        · rw [scanStep_due idf due acc o0 k0 hk0 hd]
      rw [hmem, insertSet_mem]
      constructor
      · rintro (rfl | h)
        · exact Or.inr ⟨o0, rfl, hk0⟩
        · exact Or.inl h
      · rintro (h | ⟨o, ho, hk⟩)
        · exact Or.inr h
        · rw [Option.some.injEq] at ho
          rw [← ho, hk0] at hk
          exact Or.inl ((Option.some.injEq _ _ ▸ hk).symm)

theorem scanStep_refresh_mem (idf : String) (due : Jobj → Bool) (x : Int)
    (acc : ScanOut) (l : SrcLine) :
    x ∈ (scanStep idf due acc l).refreshIds ↔
      x ∈ acc.refreshIds ∨
        ∃ o, l = some o ∧ asInt (olookup o idf) = some x ∧ due o = true := by
  match l with
  | none =>
    rw [scanStep_none]
    simp
  | some o0 =>
    rcases hk0 : asInt (olookup o0 idf) with _ | k0
    · rw [scanStep_nokey idf due acc o0 hk0]
      constructor
      · exact fun h => Or.inl h
      · rintro (h | ⟨o, ho, hk, hd⟩)
        · exact h
        · rw [Option.some.injEq] at ho
          rw [← ho, hk0] at hk
          cases hk
    · cases hdue : due o0
      · rw [scanStep_notdue idf due acc o0 k0 hk0 hdue]
        constructor
        · exact fun h => Or.inl h
        · rintro (h | ⟨o, ho, hk, hd⟩)
          · exact h
          · rw [Option.some.injEq] at ho
            rw [← ho, hdue] at hd
            cases hd
      · rw [scanStep_due idf due acc o0 k0 hk0 hdue]
        show x ∈ insertSet acc.refreshIds k0 ↔ _
        rw [insertSet_mem]
        constructor
        · rintro (rfl | h)
          · exact Or.inr ⟨o0, rfl, hk0, hdue⟩
          · exact Or.inl h
        · rintro (h | ⟨o, ho, hk, hd⟩)
          · exact Or.inr h
          · rw [Option.some.injEq] at ho
            rw [← ho, hk0] at hk
            exact Or.inl ((Option.some.injEq _ _ ▸ hk).symm)

theorem scanLoop_allIds_mem (idf : String) (due : Jobj → Bool) (x : Int) :
    ∀ (store : List SrcLine) (acc : ScanOut),
      (x ∈ (scanLoop idf due acc store).allIds ↔
        x ∈ acc.allIds ∨ ∃ o, (some o) ∈ store ∧ asInt (olookup o idf) = some x) := by
  intro store
  induction store with
  | nil => intro acc; simp [scanLoop]
  | cons l rest ih =>
    intro acc
    rw [scanLoop, ih, scanStep_allIds_mem]
    constructor
    · rintro ((h | ⟨o, rfl, hk⟩) | ⟨o, ho, hk⟩)
      · exact Or.inl h
      · exact Or.inr ⟨o, List.mem_cons_self _ _, hk⟩
      · exact Or.inr ⟨o, List.mem_cons_of_mem _ ho, hk⟩
    · rintro (h | ⟨o, ho, hk⟩)
      · exact Or.inl (Or.inl h)
      · rcases List.mem_cons.mp ho with h' | h'
        · exact Or.inl (Or.inr ⟨o, h'.symm, hk⟩)
        · exact Or.inr ⟨o, h', hk⟩

theorem scanLoop_refresh_mem (idf : String) (due : Jobj → Bool) (x : Int) :
    ∀ (store : List SrcLine) (acc : ScanOut),
      (x ∈ (scanLoop idf due acc store).refreshIds ↔
        x ∈ acc.refreshIds ∨
          ∃ o, (some o) ∈ store ∧ asInt (olookup o idf) = some x ∧ due o = true) := by
  intro store
  induction store with
  | nil => intro acc; simp [scanLoop]
  | cons l rest ih =>
    intro acc
    rw [scanLoop, ih, scanStep_refresh_mem]
    constructor
    · rintro ((h | ⟨o, rfl, hk⟩) | ⟨o, ho, hk⟩)
      · exact Or.inl h
      · exact Or.inr ⟨o, List.mem_cons_self _ _, hk⟩
      · exact Or.inr ⟨o, List.mem_cons_of_mem _ ho, hk⟩
    · rintro (h | ⟨o, ho, hk⟩)
      · exact Or.inl (Or.inl h)
      · rcases List.mem_cons.mp ho with h' | h'
        · exact Or.inl (Or.inr ⟨o, h'.symm, hk⟩)
        · exact Or.inr ⟨o, h', hk⟩

theorem scanCore_allIds_mem (idf : String) (due : Jobj → Bool) (x : Int)
    (store : List SrcLine) :
    x ∈ (scanCore idf due store).allIds ↔
      ∃ o, (some o) ∈ store ∧ asInt (olookup o idf) = some x := by
  rw [scanCore, scanLoop_allIds_mem]
  simp

theorem scanCore_refresh_mem (idf : String) (due : Jobj → Bool) (x : Int)
    (store : List SrcLine) :
    x ∈ (scanCore idf due store).refreshIds ↔
      ∃ o, (some o) ∈ store ∧ asInt (olookup o idf) = some x ∧ due o = true := by
  rw [scanCore, scanLoop_refresh_mem]
  simp

theorem dedupLoop_mem (x : Int) :
    ∀ (l seen : List Int), x ∈ dedupLoop seen l ↔ x ∈ l ∧ x ∉ seen := by
  intro l
  induction l with
  | nil => intro seen; simp [dedupLoop]
  | cons mid rest ih =>
    intro seen
    by_cases h : mid ∈ seen
    · rw [dedupLoop, if_pos h, ih]
      constructor
      · rintro ⟨h1, h2⟩
        exact ⟨List.mem_cons_of_mem _ h1, h2⟩
      · rintro ⟨h1, h2⟩
        rcases List.mem_cons.mp h1 with rfl | h1
        · exact absurd h h2
        · exact ⟨h1, h2⟩
    · rw [dedupLoop, if_neg h]
      constructor
      · intro hm
        rcases List.mem_cons.mp hm with rfl | hm
        · exact ⟨List.mem_cons_self _ _, h⟩
        · rw [ih] at hm
          refine ⟨List.mem_cons_of_mem _ hm.1, fun hc => hm.2 (List.mem_cons_of_mem _ hc)⟩
      · rintro ⟨h1, h2⟩
        rcases List.mem_cons.mp h1 with rfl | h1
        · exact List.mem_cons_self _ _
        · by_cases hx : x = mid
          · rw [hx]; exact List.mem_cons_self _ _
          · refine List.mem_cons_of_mem _ ?_
            rw [ih]
            exact ⟨h1, fun hc => (List.mem_cons.mp hc).elim hx h2⟩

theorem dedupLoop_nodup : ∀ (l seen : List Int), (dedupLoop seen l).Nodup := by
  intro l
  induction l with
  | nil => intro seen; simp [dedupLoop]
  | cons mid rest ih =>
    intro seen
    by_cases h : mid ∈ seen
    · rw [dedupLoop, if_pos h]
      exact ih seen
    · rw [dedupLoop, if_neg h]
      refine List.nodup_cons.mpr ⟨?_, ih (mid :: seen)⟩
      intro hc
      exact ((dedupLoop_mem mid rest (mid :: seen)).mp hc).2 (List.mem_cons_self _ _)

theorem copyRetained_nil (idf : String) (ts : List Int) :
    copyRetained idf ts [] = ([], 0) := rfl

theorem copyRetained_malformed (idf : String) (ts : List Int) (rest : List SrcLine) :
    copyRetained idf ts (none :: rest) = copyRetained idf ts rest := rfl

theorem copyRetained_some_eq (idf : String) (ts : List Int) (o : Jobj) (rest : List SrcLine) :
    copyRetained idf ts (some o :: rest)
      = (match asInt (olookup o idf) with
         | some mid =>
           if mid ∈ ts then copyRetained idf ts rest
           else (some o :: (copyRetained idf ts rest).1, (copyRetained idf ts rest).2 + 1)
         | none => (some o :: (copyRetained idf ts rest).1, (copyRetained idf ts rest).2 + 1)) := rfl

theorem copyRetained_nokey (idf : String) (ts : List Int) (o : Jobj) (rest : List SrcLine)
    (h : asInt (olookup o idf) = none) :
    copyRetained idf ts (some o :: rest)
      = (some o :: (copyRetained idf ts rest).1, (copyRetained idf ts rest).2 + 1) := by
  rw [copyRetained_some_eq, h]

theorem copyRetained_drop (idf : String) (ts : List Int) (o : Jobj) (rest : List SrcLine)
    (mid : Int) (h : asInt (olookup o idf) = some mid) (hm : mid ∈ ts) :
    copyRetained idf ts (some o :: rest) = copyRetained idf ts rest := by
  rw [copyRetained_some_eq, h]
  exact if_pos hm

theorem copyRetained_keep (idf : String) (ts : List Int) (o : Jobj) (rest : List SrcLine)
    (mid : Int) (h : asInt (olookup o idf) = some mid) (hm : mid ∉ ts) :
    copyRetained idf ts (some o :: rest)
      = (some o :: (copyRetained idf ts rest).1, (copyRetained idf ts rest).2 + 1) := by
  rw [copyRetained_some_eq, h]
  exact if_neg hm

theorem storeKeys_nil (idf : String) : storeKeys idf [] = [] := rfl

theorem storeKeys_cons_nokey (idf : String) (l : SrcLine) (rest : List SrcLine)
    (h : lineKey idf l = none) :
    storeKeys idf (l :: rest) = storeKeys idf rest := by
  rw [storeKeys, List.filterMap_cons, h]
  rfl

theorem storeKeys_cons_key (idf : String) (l : SrcLine) (rest : List SrcLine)
    (k : Int) (h : lineKey idf l = some k) :
    storeKeys idf (l :: rest) = k :: storeKeys idf rest := by
  rw [storeKeys, List.filterMap_cons, h]
  rfl

theorem copyRetained_count (idf : String) (ts : List Int) :
    ∀ store : List SrcLine, (copyRetained idf ts store).2 = (copyRetained idf ts store).1.length := by
  intro store
  induction store with
  | nil => rfl
  | cons l rest ih =>
    match l with
    | none =>
      rw [copyRetained_malformed]
      exact ih
    | some o =>
      rcases hk : asInt (olookup o idf) with _ | mid
      · rw [copyRetained_nokey idf ts o rest hk]
        simp [ih]
      · by_cases hm : mid ∈ ts
        · rw [copyRetained_drop idf ts o rest mid hk hm]
          exact ih
        · rw [copyRetained_keep idf ts o rest mid hk hm]
          simp [ih]

theorem copyRetained_keys_sublist (idf : String) (ts : List Int) :
    ∀ store : List SrcLine,
      (storeKeys idf (copyRetained idf ts store).1).Sublist (storeKeys idf store) := by
  intro store
  induction store with
  | nil => simp [copyRetained_nil, storeKeys_nil]
  | cons l rest ih =>
    match l with
    | none =>
      rw [copyRetained_malformed, storeKeys_cons_nokey idf none rest rfl]
      exact ih
    | some o =>
      rcases hk : asInt (olookup o idf) with _ | mid
      · have hlk : lineKey idf (some o) = none := hk
        rw [copyRetained_nokey idf ts o rest hk, storeKeys_cons_nokey idf (some o) rest hlk,
            storeKeys_cons_nokey idf (some o) (copyRetained idf ts rest).1 hlk]
        exact ih
      · have hlk : lineKey idf (some o) = some mid := hk
        by_cases hm : mid ∈ ts
        · rw [copyRetained_drop idf ts o rest mid hk hm,
              storeKeys_cons_key idf (some o) rest mid hlk]
          exact ih.trans (List.sublist_cons_self _ _)
        · rw [copyRetained_keep idf ts o rest mid hk hm,
              storeKeys_cons_key idf (some o) rest mid hlk,
              storeKeys_cons_key idf (some o) (copyRetained idf ts rest).1 mid hlk]
          exact List.Sublist.cons₂ _ ih

theorem copyRetained_keys_not_target (idf : String) (ts : List Int) (k : Int) :
    ∀ store : List SrcLine,
      k ∈ storeKeys idf (copyRetained idf ts store).1 → k ∉ ts := by
  intro store
  induction store with
  | nil => intro h; cases h
  | cons l rest ih =>
    match l with
    | none =>
      rw [copyRetained_malformed]
      exact ih
    | some o =>
      rcases hk : asInt (olookup o idf) with _ | mid
      · have hlk : lineKey idf (some o) = none := hk
        rw [copyRetained_nokey idf ts o rest hk,
            storeKeys_cons_nokey idf (some o) (copyRetained idf ts rest).1 hlk]
        exact ih
      · have hlk : lineKey idf (some o) = some mid := hk
        by_cases hm : mid ∈ ts
        · rw [copyRetained_drop idf ts o rest mid hk hm]
          exact ih
        · rw [copyRetained_keep idf ts o rest mid hk hm,
              storeKeys_cons_key idf (some o) (copyRetained idf ts rest).1 mid hlk]
          intro hmem
          rcases List.mem_cons.mp hmem with rfl | hmem
          · exact hm
          · exact ih hmem

theorem processTargets_nil (project : Jobj → Jobj) (fetch : Int → FetchOut)
    (existing : List Int) :
    processTargets project fetch existing [] = ⟨[], 0, 0, 0, []⟩ := rfl

theorem processTargets_cons_eq (project : Jobj → Jobj) (fetch : Int → FetchOut)
    (existing : List Int) (t : Int) (ts : List Int) :
    processTargets project fetch existing (t :: ts)
      = (match (fetch t).data with
         | some d =>
           ⟨some (project d) :: (processTargets project fetch existing ts).appended,
            (processTargets project fetch existing ts).ok + 1,
            (if t ∈ existing then (processTargets project fetch existing ts).added
             else (processTargets project fetch existing ts).added + 1),
            (if t ∈ existing then (processTargets project fetch existing ts).updated + 1
             else (processTargets project fetch existing ts).updated),
            (fetch t).errs ++ (processTargets project fetch existing ts).errs⟩
         | none =>
           ⟨(processTargets project fetch existing ts).appended,
            (processTargets project fetch existing ts).ok,
            (processTargets project fetch existing ts).added,
            (processTargets project fetch existing ts).updated,
            (fetch t).errs ++ (processTargets project fetch existing ts).errs⟩) := rfl

theorem processTargets_cons_some (project : Jobj → Jobj) (fetch : Int → FetchOut)
    (existing : List Int) (t : Int) (ts : List Int) (d : Jobj)
    (h : (fetch t).data = some d) :
    processTargets project fetch existing (t :: ts)
      = ⟨some (project d) :: (processTargets project fetch existing ts).appended,
         (processTargets project fetch existing ts).ok + 1,
         (if t ∈ existing then (processTargets project fetch existing ts).added
          else (processTargets project fetch existing ts).added + 1),
         (if t ∈ existing then (processTargets project fetch existing ts).updated + 1
          else (processTargets project fetch existing ts).updated),
         (fetch t).errs ++ (processTargets project fetch existing ts).errs⟩ := by
  rw [processTargets_cons_eq, h]

theorem processTargets_cons_none (project : Jobj → Jobj) (fetch : Int → FetchOut)
    (existing : List Int) (t : Int) (ts : List Int)
    (h : (fetch t).data = none) :
    processTargets project fetch existing (t :: ts)
      = ⟨(processTargets project fetch existing ts).appended,
         (processTargets project fetch existing ts).ok,
         (processTargets project fetch existing ts).added,
         (processTargets project fetch existing ts).updated,
         (fetch t).errs ++ (processTargets project fetch existing ts).errs⟩ := by
  rw [processTargets_cons_eq, h]

theorem processTargets_ok_split (project : Jobj → Jobj) (fetch : Int → FetchOut)
    (existing : List Int) :
    ∀ ts : List Int,
      (processTargets project fetch existing ts).ok
        = (processTargets project fetch existing ts).added
          + (processTargets project fetch existing ts).updated := by
  intro ts
  induction ts with
  | nil => rfl
  | cons t rest ih =>
    rcases hd : (fetch t).data with _ | d
    · rw [processTargets_cons_none project fetch existing t rest hd]
      exact ih
    · rw [processTargets_cons_some project fetch existing t rest d hd]
      by_cases hm : t ∈ existing
      · simp only [if_pos hm]
        omega
      · simp only [if_neg hm]
        omega

theorem processTargets_app_len (project : Jobj → Jobj) (fetch : Int → FetchOut)
    (existing : List Int) :
    ∀ ts : List Int,
      (processTargets project fetch existing ts).appended.length
        = (processTargets project fetch existing ts).ok := by
  intro ts
  induction ts with
  | nil => rfl
  | cons t rest ih =>
    rcases hd : (fetch t).data with _ | d
    · rw [processTargets_cons_none project fetch existing t rest hd]
      exact ih
    · rw [processTargets_cons_some project fetch existing t rest d hd]
      simp [ih]

theorem processTargets_errs (project : Jobj → Jobj) (fetch : Int → FetchOut)
    (existing : List Int) :
    ∀ ts : List Int,
      (processTargets project fetch existing ts).errs
        = ts.foldr (fun t a => (fetch t).errs ++ a) [] := by
  intro ts
  induction ts with
  | nil => rfl
  | cons t rest ih =>
    rcases hd : (fetch t).data with _ | d
    · rw [processTargets_cons_none project fetch existing t rest hd, List.foldr_cons, ih]
    · rw [processTargets_cons_some project fetch existing t rest d hd]
      rw [List.foldr_cons, ih]

theorem processTargets_keys_src (idf : String) (project : Jobj → Jobj)
    (fetch : Int → FetchOut) (existing : List Int) (k : Int) :
    ∀ ts : List Int,
      k ∈ storeKeys idf (processTargets project fetch existing ts).appended →
        ∃ t, t ∈ ts ∧ ∃ d, (fetch t).data = some d
          ∧ asInt (olookup (project d) idf) = some k := by
  intro ts
  induction ts with
  | nil => intro h; cases h
  | cons t rest ih =>
    rcases hd : (fetch t).data with _ | d
    · rw [processTargets_cons_none project fetch existing t rest hd]
      intro h
      rcases ih h with ⟨t', ht', hh⟩
      exact ⟨t', List.mem_cons_of_mem _ ht', hh⟩
    · rw [processTargets_cons_some project fetch existing t rest d hd]
      intro h
      rcases hlk : lineKey idf (some (project d)) with _ | k0
      · rw [storeKeys_cons_nokey idf _ _ hlk] at h
        rcases ih h with ⟨t', ht', hh⟩
        exact ⟨t', List.mem_cons_of_mem _ ht', hh⟩
      · rw [storeKeys_cons_key idf _ _ k0 hlk] at h
        rcases List.mem_cons.mp h with rfl | h
        · exact ⟨t, List.mem_cons_self _ _, d, hd, hlk⟩
        · rcases ih h with ⟨t', ht', hh⟩
          exact ⟨t', List.mem_cons_of_mem _ ht', hh⟩

theorem processTargets_keys_nodup (idf : String) (project : Jobj → Jobj)
    (fetch : Int → FetchOut) (existing : List Int)
    (hcoh : ∀ t d, (fetch t).data = some d →
      asInt (olookup (project d) idf) = some t ∨ asInt (olookup (project d) idf) = none) :
    ∀ ts : List Int, ts.Nodup →
      (storeKeys idf (processTargets project fetch existing ts).appended).Nodup := by
  intro ts
  induction ts with
  | nil => intro _; simp [processTargets_nil, storeKeys_nil]
  | cons t rest ih =>
    intro hnd
    rcases List.nodup_cons.mp hnd with ⟨hnotin, hndrest⟩
    rcases hd : (fetch t).data with _ | d
    · rw [processTargets_cons_none project fetch existing t rest hd]
      exact ih hndrest
    · rw [processTargets_cons_some project fetch existing t rest d hd]
      rcases hlk : lineKey idf (some (project d)) with _ | k0
      · rw [storeKeys_cons_nokey idf _ _ hlk]
        exact ih hndrest
      · rw [storeKeys_cons_key idf _ _ k0 hlk]
        refine List.nodup_cons.mpr ⟨?_, ih hndrest⟩
        intro hc
        rcases processTargets_keys_src idf project fetch existing k0 rest hc
          with ⟨t', ht', d', hd', hk'⟩
        rcases hcoh t' d' hd' with he | he
        · rw [he] at hk'
          have hk0t : k0 = t' := (Option.some.injEq _ _ ▸ hk'.symm)
          have : lineKey idf (some (project d)) = some t ∨ lineKey idf (some (project d)) = none :=
            hcoh t d hd
          rcases this with he2 | he2
          · rw [hlk] at he2
            have : k0 = t := Option.some.injEq _ _ ▸ he2
            rw [this] at hk0t
            rw [← hk0t] at ht'
            exact hnotin ht'
          · rw [hlk] at he2
            cases he2
        · rw [he] at hk'
          cases hk'

theorem genericRun_eq (idf : String) (wd : Option Nat) (df : Option String)
    (today : Int) (pd : String → Option Int) (project : Jobj → Jobj)
    (fetch : Int → FetchOut) (input : List SrcLine) (preStore : Option (List SrcLine)) :
    genericRun idf wd df today pd project fetch input preStore
      = (if (iterNdjsonIds idf input).isEmpty then none
         else if (runTargets idf wd df today pd input preStore).isEmpty then
           some ⟨preStore, 0, 0, 0, 0,
                 (scan_existing_ndjson idf wd df today pd (preStore.getD [])).keptLines, [],
                 [(0, 0, (scan_existing_ndjson idf wd df today pd (preStore.getD [])).keptLines)]⟩
         else
           some ⟨some ((copyRetained idf (runTargets idf wd df today pd input preStore)
                         (preStore.getD [])).1
                   ++ (processTargets project fetch
                         (scan_existing_ndjson idf wd df today pd (preStore.getD [])).allIds
                         (runTargets idf wd df today pd input preStore)).appended),
                 (copyRetained idf (runTargets idf wd df today pd input preStore)
                   (preStore.getD [])).2,
                 (processTargets project fetch
                   (scan_existing_ndjson idf wd df today pd (preStore.getD [])).allIds
                   (runTargets idf wd df today pd input preStore)).ok,
                 (processTargets project fetch
                   (scan_existing_ndjson idf wd df today pd (preStore.getD [])).allIds
                   (runTargets idf wd df today pd input preStore)).added,
                 (processTargets project fetch
                   (scan_existing_ndjson idf wd df today pd (preStore.getD [])).allIds
                   (runTargets idf wd df today pd input preStore)).updated,
                 (copyRetained idf (runTargets idf wd df today pd input preStore)
                   (preStore.getD [])).2
                   + (processTargets project fetch
                       (scan_existing_ndjson idf wd df today pd (preStore.getD [])).allIds
                       (runTargets idf wd df today pd input preStore)).ok,
                 (processTargets project fetch
                   (scan_existing_ndjson idf wd df today pd (preStore.getD [])).allIds
                   (runTargets idf wd df today pd input preStore)).errs,
                 [((processTargets project fetch
                     (scan_existing_ndjson idf wd df today pd (preStore.getD [])).allIds
                     (runTargets idf wd df today pd input preStore)).added,
                   (processTargets project fetch
                     (scan_existing_ndjson idf wd df today pd (preStore.getD [])).allIds
                     (runTargets idf wd df today pd input preStore)).updated,
                   (copyRetained idf (runTargets idf wd df today pd input preStore)
                     (preStore.getD [])).2
                     + (processTargets project fetch
                         (scan_existing_ndjson idf wd df today pd (preStore.getD [])).allIds
                         (runTargets idf wd df today pd input preStore)).ok)]⟩) := by
  rw [genericRun, runTargets]

theorem copyRetained_len_of_not_mem (idf : String) (k : Int) :
    ∀ store : List SrcLine,
      (∀ l ∈ store, ∃ o j, l = some o ∧ asInt (olookup o idf) = some j) →
      k ∉ storeKeys idf store →
      (copyRetained idf [k] store).1.length = store.length := by
  intro store
  induction store with
  | nil => intro _ _; rfl
  | cons l rest ih =>
    intro hall hk
    rcases hall l (List.mem_cons_self _ _) with ⟨o, j, rfl, hj⟩
    have hlk : lineKey idf (some o) = some j := hj
    rw [storeKeys_cons_key idf _ _ j hlk] at hk
    have hjk : j ≠ k := fun h => hk (h ▸ List.mem_cons_self _ _)
    have hkrest : k ∉ storeKeys idf rest := fun h => hk (List.mem_cons_of_mem _ h)
    have hnm : j ∉ ([k] : List Int) := by
      intro hc
      rcases List.mem_singleton.mp hc with rfl
      exact hjk rfl
    rw [copyRetained_keep idf [k] o rest j hj hnm]
    simp only [List.length_cons]
    rw [ih (fun l hl => hall l (List.mem_cons_of_mem _ hl)) hkrest]

theorem copyRetained_len_singleton (idf : String) (k : Int) :
    ∀ store : List SrcLine,
      (∀ l ∈ store, ∃ o j, l = some o ∧ asInt (olookup o idf) = some j) →
      (storeKeys idf store).Nodup →
      k ∈ storeKeys idf store →
      (copyRetained idf [k] store).1.length + 1 = store.length := by
  intro store
  induction store with
  | nil => intro _ _ h; cases h
  | cons l rest ih =>
    intro hall hnd hk
    rcases hall l (List.mem_cons_self _ _) with ⟨o, j, rfl, hj⟩
    have hlk : lineKey idf (some o) = some j := hj
    rw [storeKeys_cons_key idf _ _ j hlk] at hk hnd
    rcases List.nodup_cons.mp hnd with ⟨hjnot, hndrest⟩
    rcases List.mem_cons.mp hk with heq | hkrest
    · have hmem : j ∈ ([k] : List Int) := by
        rw [heq]
        exact List.mem_singleton.mpr rfl
      rw [copyRetained_drop idf [k] o rest j hj hmem]
      have hknot : k ∉ storeKeys idf rest := by
        rw [heq]
        exact hjnot
      rw [copyRetained_len_of_not_mem idf k rest
        (fun l hl => hall l (List.mem_cons_of_mem _ hl)) hknot]
      rfl
    · have hjk : j ≠ k := fun h => hjnot (h ▸ hkrest)
      have hnm : j ∉ ([k] : List Int) := by
        intro hc
        rcases List.mem_singleton.mp hc with rfl
        exact hjk rfl
      rw [copyRetained_keep idf [k] o rest j hj hnm]
      simp only [List.length_cons]
      rw [← ih (fun l hl => hall l (List.mem_cons_of_mem _ hl)) hndrest hkrest]

/-! Claim theorems. -/

/-- C4: under the fixed time-window refresh policy of scan_existing_ndjson,
a record whose date field parses is flagged due if and only if
today - window_days <= date <= today, inclusive at both ends; in
particular a record dated exactly today - window_days is selected and one
dated today - window_days - 1 is not. -/
theorem refresh_window_inclusive_boundary
    (idf : String) (w : Nat) (f : String) (today : Int) (pd : String → Option Int)
    (store : List SrcLine) (o : Jobj) (k dt : Int)
    (ho : (some o) ∈ store)
    (hk : asInt (olookup o idf) = some k)
    (hdt : parse_date_safe pd (olookup o f) = some dt)
    (huniq : ∀ o', (some o') ∈ store → asInt (olookup o' idf) = some k → o' = o) :
    (k ∈ (scan_existing_ndjson idf (some w) (some f) today pd store).refreshIds
      ↔ (today - (w : Int) ≤ dt ∧ dt ≤ today))
    ∧ (dt = today - (w : Int) →
        k ∈ (scan_existing_ndjson idf (some w) (some f) today pd store).refreshIds)
    ∧ (dt = today - (w : Int) - 1 →
        k ∉ (scan_existing_ndjson idf (some w) (some f) today pd store).refreshIds) := by
  have hdue : lineDue (some w) (some f) today pd o
      = decide (today - (w : Int) ≤ dt ∧ dt ≤ today) := by
    have e : lineDue (some w) (some f) today pd o
        = (match parse_date_safe pd (olookup o f) with
           | some dt => decide (today - (w : Int) ≤ dt ∧ dt ≤ today)
           | none => false) := rfl
    rw [e, hdt]
  have hiff : k ∈ (scan_existing_ndjson idf (some w) (some f) today pd store).refreshIds
      ↔ (today - (w : Int) ≤ dt ∧ dt ≤ today) := by
    rw [scan_existing_ndjson, scanCore_refresh_mem]
    constructor
    · rintro ⟨o', ho', hk', hd'⟩
      rw [huniq o' ho' hk'] at hd'
      rw [hdue] at hd'
      exact of_decide_eq_true hd'
    · intro hcond
      exact ⟨o, ho, hk, by rw [hdue]; exact decide_eq_true hcond⟩
  refine ⟨hiff, ?_, ?_⟩
  · intro hdt0
    rw [hiff]
    omega
  · intro hdt0
    rw [hiff]
    omega

/-- C8: under the status-keyed refresh policy of
_scan_existing_custom_refresh, a record whose status is the special
always value Returning Series is flagged due regardless of its
last_air_date, and a record whose status string is not in the policy
table is flagged due exactly when its last_air_date falls in the default
60-day window. -/
theorem status_keyed_refresh_policy (today : Int) (pd : String → Option Int)
    (store : List SrcLine) (o : Jobj) (k : Int)
    (ho : (some o) ∈ store)
    (hk : asInt (olookup o "id") = some k)
    (huniq : ∀ o', (some o') ∈ store → asInt (olookup o' "id") = some k → o' = o) :
    (olookup o "status" = some (JVal.str "Returning Series") →
      k ∈ (scan_existing_custom_refresh today pd store).refreshIds)
    ∧ (∀ s, olookup o "status" = some (JVal.str s) →
        STATUS_REFRESH_POLICY.lookup s = none →
        (k ∈ (scan_existing_custom_refresh today pd store).refreshIds ↔
          tv_in_window today pd (olookup o "last_air_date") DEFAULT_WINDOW = true)) := by
  constructor
  · intro hs
    have hpol : tvPolicyOf o = RPolicy.always := by
      unfold tvPolicyOf
      rw [hs]
      rfl
    have hdue : tvLineDue today pd o = true := by
      unfold tvLineDue
      rw [hpol]
    rw [scan_existing_custom_refresh, scanCore_refresh_mem]
    exact ⟨o, ho, hk, hdue⟩
  · intro s hs hnone
    have hpol : tvPolicyOf o = RPolicy.window DEFAULT_WINDOW := by
      have e : tvPolicyOf o
          = (STATUS_REFRESH_POLICY.lookup s).getD (RPolicy.window DEFAULT_WINDOW) := by
        unfold tvPolicyOf
        rw [hs]
      rw [e, hnone]
      rfl
    have hdue : tvLineDue today pd o
        = tv_in_window today pd (olookup o "last_air_date") DEFAULT_WINDOW := by
      unfold tvLineDue
      rw [hpol]
    rw [scan_existing_custom_refresh, scanCore_refresh_mem]
    constructor
    · rintro ⟨o', ho', hk', hd'⟩
      rw [huniq o' ho' hk'] at hd'
      rw [hdue] at hd'
      exact hd'
    · intro hcond
      exact ⟨o, ho, hk, by rw [hdue]; exact hcond⟩

theorem tmdbLoop_http_eq (a : Nat) (b : ℚ) (code : Nat) (ra : Option (Option ℚ))
    (rest : List Resp) (rands : List ℚ) :
    tmdbLoop a b (Resp.http code ra :: rest) rands
      = (if code = 404 then ⟨none, ["404"], [], a + 1, false⟩
         else if code = 401 then ⟨none, [], [], a + 1, true⟩
         else if code = 429 then
           (if a + 1 < MAX_RETRIES_PER_ID then
             ⟨(tmdbLoop (a + 1) (backoffNext b (rands.headD 0)) rest rands.tail).result,
              (tmdbLoop (a + 1) (backoffNext b (rands.headD 0)) rest rands.tail).counted,
              min (match ra with
                   | some (some q) => q
                   | some none => b
                   | none => b) MAX_BACKOFF_SECONDS
                :: (tmdbLoop (a + 1) (backoffNext b (rands.headD 0)) rest rands.tail).sleeps,
              (tmdbLoop (a + 1) (backoffNext b (rands.headD 0)) rest rands.tail).attempts,
              (tmdbLoop (a + 1) (backoffNext b (rands.headD 0)) rest rands.tail).fatal⟩
            else ⟨none, ["HTTP_429_exceeded_retries"],
                  [min (match ra with
                        | some (some q) => q
                        | some none => b
                        | none => b) MAX_BACKOFF_SECONDS], a + 1, false⟩)
         else ⟨none, ["HTTP_" ++ toString code], [], a + 1, false⟩) := rfl

theorem tmdbLoop_429_hint (a : Nat) (b q : ℚ) (rest : List Resp) (rands : List ℚ) :
    tmdbLoop a b (Resp.http 429 (some (some q)) :: rest) rands
      = (if a + 1 < MAX_RETRIES_PER_ID then
           ⟨(tmdbLoop (a + 1) (backoffNext b (rands.headD 0)) rest rands.tail).result,
            (tmdbLoop (a + 1) (backoffNext b (rands.headD 0)) rest rands.tail).counted,
            min q MAX_BACKOFF_SECONDS
              :: (tmdbLoop (a + 1) (backoffNext b (rands.headD 0)) rest rands.tail).sleeps,
            (tmdbLoop (a + 1) (backoffNext b (rands.headD 0)) rest rands.tail).attempts,
            (tmdbLoop (a + 1) (backoffNext b (rands.headD 0)) rest rands.tail).fatal⟩
         else ⟨none, ["HTTP_429_exceeded_retries"], [min q MAX_BACKOFF_SECONDS], a + 1, false⟩) := rfl

theorem tmdbLoop_429_nohint (a : Nat) (b : ℚ) (rest : List Resp) (rands : List ℚ) :
    tmdbLoop a b (Resp.http 429 none :: rest) rands
      = (if a + 1 < MAX_RETRIES_PER_ID then
           ⟨(tmdbLoop (a + 1) (backoffNext b (rands.headD 0)) rest rands.tail).result,
            (tmdbLoop (a + 1) (backoffNext b (rands.headD 0)) rest rands.tail).counted,
            min b MAX_BACKOFF_SECONDS
              :: (tmdbLoop (a + 1) (backoffNext b (rands.headD 0)) rest rands.tail).sleeps,
            (tmdbLoop (a + 1) (backoffNext b (rands.headD 0)) rest rands.tail).attempts,
            (tmdbLoop (a + 1) (backoffNext b (rands.headD 0)) rest rands.tail).fatal⟩
         else ⟨none, ["HTTP_429_exceeded_retries"], [min b MAX_BACKOFF_SECONDS], a + 1, false⟩) := rfl

theorem tmdbLoop_429_exhaust :
    ∀ (n a : Nat) (b : ℚ) (rest : List Resp) (rands : List ℚ),
      0 < n → a + n = MAX_RETRIES_PER_ID →
      (tmdbLoop a b (List.replicate n (Resp.http 429 none) ++ rest) rands).result = none
      ∧ (tmdbLoop a b (List.replicate n (Resp.http 429 none) ++ rest) rands).counted
          = ["HTTP_429_exceeded_retries"]
      ∧ (tmdbLoop a b (List.replicate n (Resp.http 429 none) ++ rest) rands).attempts
          = MAX_RETRIES_PER_ID := by
  intro n
  induction n with
  | zero =>
    intro a b rest rands h0
    cases h0
  | succ m ih =>
    intro a b rest rands _ hsum
    rw [List.replicate_succ, List.cons_append, tmdbLoop_429_nohint]
    by_cases hlt : a + 1 < MAX_RETRIES_PER_ID
    · rw [if_pos hlt]
      have hm : 0 < m := by
        simp only [MAX_RETRIES_PER_ID] at hsum hlt
        omega
      have hsum2 : (a + 1) + m = MAX_RETRIES_PER_ID := by
        simp only [MAX_RETRIES_PER_ID] at hsum ⊢
        omega
      rcases ih (a + 1) (backoffNext b (rands.headD 0)) rest rands.tail hm hsum2
        with ⟨h1, h2, h3⟩
      exact ⟨h1, h2, h3⟩
    · rw [if_neg hlt]
      refine ⟨rfl, rfl, ?_⟩
      simp only [MAX_RETRIES_PER_ID] at hsum hlt ⊢
      omega

/-- C9: an HTTP 404 is terminal for tmdb_request: the 404 error key is
counted exactly once, no retry and no sleep occur (one attempt), and the
executor returns the empty result; any status other than 401, 404 and
429 is likewise terminal, counted once under its code, with no retry. -/
theorem terminal_status_no_retry :
    (∀ (ra : Option (Option ℚ)) (rest : List Resp) (rands : List ℚ),
      tmdb_request (Resp.http 404 ra :: rest) rands = ⟨none, ["404"], [], 1, false⟩)
    ∧ (∀ (c : Nat), c ≠ 401 → c ≠ 404 → c ≠ 429 →
       ∀ (ra : Option (Option ℚ)) (rest : List Resp) (rands : List ℚ),
        tmdb_request (Resp.http c ra :: rest) rands
          = ⟨none, ["HTTP_" ++ toString c], [], 1, false⟩) := by
  constructor
  · intro ra rest rands
    rfl
  · intro c h1 h4 h9 ra rest rands
    rw [tmdb_request, tmdbLoop_http_eq]
    rw [if_neg h4, if_neg h1, if_neg h9]

/-- C5: on a 429 the executor sleeps the server Retry-After hint capped
at MAX_BACKOFF_SECONDS before the next attempt when the hint is present,
else the current backoff capped the same way; the backoff update
multiplies by a factor in the interval from 1.5 inclusive to 2 exclusive
and caps the result; and six 429 responses exhaust the retry budget: the
request returns the empty result, counts exactly one exhausted-retries
key, and makes exactly MAX_RETRIES_PER_ID attempts no matter what
responses would follow. -/
theorem rate_limit_backoff_budget :
    (∀ (q : ℚ) (rest : List Resp) (rands : List ℚ),
      (tmdb_request (Resp.http 429 (some (some q)) :: rest) rands).sleeps.head?
        = some (min q MAX_BACKOFF_SECONDS))
    ∧ (∀ (a : Nat) (b : ℚ) (rest : List Resp) (rands : List ℚ),
      (tmdbLoop a b (Resp.http 429 none :: rest) rands).sleeps.head?
        = some (min b MAX_BACKOFF_SECONDS))
    ∧ (∀ (b r : ℚ), 0 ≤ r → r < 1 →
        3/2 ≤ 3/2 + r * (1/2) ∧ 3/2 + r * (1/2) < 2
        ∧ backoffNext b r = min MAX_BACKOFF_SECONDS (b * (3/2 + r * (1/2))))
    ∧ (∀ (rest : List Resp) (rands : List ℚ),
        (tmdb_request (List.replicate MAX_RETRIES_PER_ID (Resp.http 429 none) ++ rest) rands).result
            = none
        ∧ (tmdb_request (List.replicate MAX_RETRIES_PER_ID (Resp.http 429 none) ++ rest) rands).counted
            = ["HTTP_429_exceeded_retries"]
        ∧ (tmdb_request (List.replicate MAX_RETRIES_PER_ID (Resp.http 429 none) ++ rest) rands).attempts
            = MAX_RETRIES_PER_ID) := by
  refine ⟨?_, ?_, ?_, ?_⟩
  · intro q rest rands
    rw [tmdb_request, tmdbLoop_429_hint]
    rw [if_pos (by simp [MAX_RETRIES_PER_ID] : 0 + 1 < MAX_RETRIES_PER_ID)]
    rfl
  · intro a b rest rands
    rw [tmdbLoop_429_nohint]
    by_cases h : a + 1 < MAX_RETRIES_PER_ID
    · rw [if_pos h]
      rfl
    · rw [if_neg h]
      rfl
  · intro b r h0 h1
    refine ⟨by linarith, by linarith, rfl⟩
  · intro rest rands
    exact tmdbLoop_429_exhaust MAX_RETRIES_PER_ID 0 (1/5) rest rands
      (by simp [MAX_RETRIES_PER_ID]) (by simp [MAX_RETRIES_PER_ID])

/-- C6 counterexample: a nested-list item that is a dict but lacks every
allow-listed sub-key is kept (narrowed to null values), not dropped: the
genres list of the projection of a payload whose single genres item is
the empty dict still has one element. -/
theorem projector_keeps_item_missing_subkeys :
    select_list_of_dicts (JVal.arr [JVal.obj []]) ["id", "name"]
      = [JVal.obj [("id", JVal.null), ("name", JVal.null)]]
    ∧ olookup (project_movie_fields [("genres", JVal.arr [JVal.obj []])]) "genres"
      = some (JVal.arr [JVal.obj [("id", JVal.null), ("name", JVal.null)]])
    ∧ (select_list_of_dicts (JVal.arr [JVal.obj []]) ["id", "name"]).length = 1 :=
  ⟨rfl, rfl, rfl⟩

/-- C6 amended: in the projector, nested list fields are narrowed through
the explicit allow-list of sub-keys per item; items that are not dicts
are dropped silently (the projected list counts exactly the dict items),
every kept item carries exactly the allow-listed keys with the
null-equivalent for absent sub-keys (so items missing sub-keys are kept
with nulls, not dropped), absent top-level fields render as null, and the
projection is a total function, so it never raises. -/
theorem projector_allow_list_total :
    (∀ (items : List JVal) (keys : List String),
      (select_list_of_dicts (JVal.arr items) keys).length = items.countP JVal.isObjB)
    ∧ (∀ (lst : JVal) (keys : List String) (v : JVal),
        v ∈ select_list_of_dicts lst keys →
        ∃ kvs, v = JVal.obj (keys.map fun k => (k, oget kvs k)))
    ∧ (∀ (d : Jobj) (k : String), k ∈ movieScalarFields →
        olookup d k = none → olookup (project_movie_fields d) k = some JVal.null) := by
  refine ⟨?_, ?_, ?_⟩
  · intro items keys
    induction items with
    | nil => rfl
    | cons it rest ih =>
      have e : ∀ l : List JVal, select_list_of_dicts (JVal.arr l) keys
          = l.filterMap (fun x =>
              match x with
              | JVal.obj kvs => some (JVal.obj (keys.map fun k => (k, oget kvs k)))
              | _ => none) := fun _ => rfl
      rw [e, List.filterMap_cons]
      rw [e] at ih
      cases it <;> simp [JVal.isObjB, List.countP_cons, ih]
  · intro lst keys v hv
    match lst with
    | JVal.arr items =>
      have e : select_list_of_dicts (JVal.arr items) keys
          = items.filterMap (fun x =>
              match x with
              | JVal.obj kvs => some (JVal.obj (keys.map fun k => (k, oget kvs k)))
              | _ => none) := rfl
      rw [e] at hv
      rcases List.mem_filterMap.mp hv with ⟨a, _, hg⟩
      match a with
      | JVal.obj kvs => exact ⟨kvs, ((Option.some.injEq _ _).mp hg).symm⟩
      | JVal.null => cases hg
      | JVal.bool _ => cases hg
      | JVal.int _ => cases hg
      | JVal.num _ => cases hg
      | JVal.str _ => cases hg
      | JVal.arr _ => cases hg
    | JVal.null => cases hv
    | JVal.bool _ => cases hv
    | JVal.int _ => cases hv
    | JVal.num _ => cases hv
    | JVal.str _ => cases hv
    | JVal.obj _ => cases hv
  · intro d k hk hnone
    simp only [movieScalarFields, List.mem_cons, List.not_mem_nil, or_false] at hk
    rcases hk with rfl | rfl | rfl | rfl | rfl | rfl | rfl | rfl | rfl | rfl | rfl | rfl | rfl | rfl | rfl
    all_goals
      simp only [olookup] at hnone
      simp [project_movie_fields, olookup, oget, hnone, List.lookup]

theorem runTargets_nodup (idf : String) (wd : Option Nat) (df : Option String)
    (today : Int) (pd : String → Option Int)
    (input : List SrcLine) (preStore : Option (List SrcLine)) :
    (runTargets idf wd df today pd input preStore).Nodup :=
  dedupLoop_nodup _ _

theorem scanLoop_filter_isSome (idf : String) (due : Jobj → Bool) :
    ∀ (store : List SrcLine) (acc : ScanOut),
      scanLoop idf due acc store = scanLoop idf due acc (store.filter Option.isSome) := by
  intro store
  induction store with
  | nil => intro acc; rfl
  | cons l rest ih =>
    intro acc
    match l with
    | none =>
      rw [scanLoop, scanStep_none]
      rw [show (none :: rest).filter Option.isSome = rest.filter Option.isSome from rfl]
      exact ih acc
    | some o =>
      rw [scanLoop]
      rw [show ((some o) :: rest).filter Option.isSome
          = some o :: rest.filter Option.isSome from rfl]
      rw [scanLoop]
      exact ih _

theorem copyRetained_filter_isSome (idf : String) (ts : List Int) :
    ∀ store : List SrcLine,
      copyRetained idf ts store = copyRetained idf ts (store.filter Option.isSome) := by
  intro store
  induction store with
  | nil => rfl
  | cons l rest ih =>
    match l with
    | none =>
      rw [copyRetained_malformed]
      rw [show (none :: rest).filter Option.isSome = rest.filter Option.isSome from rfl]
      exact ih
    | some o =>
      rw [show ((some o) :: rest).filter Option.isSome
          = some o :: rest.filter Option.isSome from rfl]
      rcases hk : asInt (olookup o idf) with _ | mid
      · rw [copyRetained_nokey idf ts o rest hk, copyRetained_nokey idf ts o _ hk, ih]
      · by_cases hm : mid ∈ ts
        · rw [copyRetained_drop idf ts o rest mid hk hm,
              copyRetained_drop idf ts o _ mid hk hm, ih]
        · rw [copyRetained_keep idf ts o rest mid hk hm,
              copyRetained_keep idf ts o _ mid hk hm, ih]

/-- C1: after any successful run of the generic fetcher, the post-run
store contains each identity key at most once, provided the pre-run
store already satisfied the invariant and every fetched payload projects
to a record whose id field is the requested id (or lacks an int id). -/
theorem post_run_key_uniqueness
    (idf : String) (wd : Option Nat) (df : Option String) (today : Int)
    (pd : String → Option Int) (project : Jobj → Jobj) (fetch : Int → FetchOut)
    (input : List SrcLine) (preStore : Option (List SrcLine)) (out : RunOut)
    (hrun : genericRun idf wd df today pd project fetch input preStore = some out)
    (huniq : KeyUnique idf (preStore.getD []))
    (hcoh : ∀ t d, (fetch t).data = some d →
      asInt (olookup (project d) idf) = some t ∨ asInt (olookup (project d) idf) = none) :
    KeyUnique idf (out.postStore.getD []) := by
  rw [genericRun_eq] at hrun
  by_cases hids : (iterNdjsonIds idf input).isEmpty
  · rw [if_pos hids] at hrun
    cases hrun
  · rw [if_neg hids] at hrun
    by_cases ht : (runTargets idf wd df today pd input preStore).isEmpty
    · rw [if_pos ht] at hrun
      cases hrun
      exact huniq
    · rw [if_neg ht] at hrun
      cases hrun
      rw [show ∀ x : List SrcLine, (some x).getD [] = x from fun _ => rfl]
      rw [KeyUnique, storeKeys, List.filterMap_append]
      rw [List.nodup_append]
      refine ⟨?_, ?_, ?_⟩
      · exact ((copyRetained_keys_sublist idf _ _).nodup huniq)
      · exact processTargets_keys_nodup idf project fetch _ hcoh _
          (runTargets_nodup idf wd df today pd input preStore)
      · intro a ha hb
        have hnot := copyRetained_keys_not_target idf _ a _ ha
        rcases processTargets_keys_src idf project fetch _ a _ hb
          with ⟨t, htm, d, hd, hk⟩
        rcases hcoh t d hd with he | he
        · rw [he] at hk
          have : a = t := ((Option.some.injEq _ _).mp hk).symm
          rw [this] at hnot
          exact hnot htm
        · rw [he] at hk
          cases hk

/-- C3: for every run of the generic fetcher with a non-empty target
set, the reported total line count equals retained plus successfully
appended lines, the post-run store has exactly that many lines, and the
number of successful appends equals added plus updated. -/
theorem run_conservation
    (idf : String) (wd : Option Nat) (df : Option String) (today : Int)
    (pd : String → Option Int) (project : Jobj → Jobj) (fetch : Int → FetchOut)
    (input : List SrcLine) (preStore : Option (List SrcLine)) (out : RunOut)
    (hrun : genericRun idf wd df today pd project fetch input preStore = some out)
    (hne : ¬ (runTargets idf wd df today pd input preStore).isEmpty) :
    out.totalLines = out.copied + out.ok
    ∧ out.ok = out.added + out.updated
    ∧ ∀ post, out.postStore = some post → post.length = out.totalLines := by
  rw [genericRun_eq] at hrun
  by_cases hids : (iterNdjsonIds idf input).isEmpty
  · rw [if_pos hids] at hrun
    cases hrun
  · rw [if_neg hids, if_neg hne] at hrun
    cases hrun
    refine ⟨rfl, processTargets_ok_split project fetch _ _, ?_⟩
    intro post hpost
    cases hpost
    rw [List.length_append, ← copyRetained_count, processTargets_app_len]

/-- C10: a run whose computed deduplicated target set is empty leaves
the store content unchanged and still logs exactly one summary line with
added = 0 and updated = 0 and the kept-line total, counting no errors. -/
theorem empty_target_run_frame
    (idf : String) (wd : Option Nat) (df : Option String) (today : Int)
    (pd : String → Option Int) (project : Jobj → Jobj) (fetch : Int → FetchOut)
    (input : List SrcLine) (preStore : Option (List SrcLine)) (out : RunOut)
    (hrun : genericRun idf wd df today pd project fetch input preStore = some out)
    (hempty : runTargets idf wd df today pd input preStore = []) :
    out.postStore = preStore ∧ out.added = 0 ∧ out.updated = 0 ∧ out.errors = []
    ∧ out.log
      = [(0, 0, (scan_existing_ndjson idf wd df today pd (preStore.getD [])).keptLines)] := by
  rw [genericRun_eq] at hrun
  by_cases hids : (iterNdjsonIds idf input).isEmpty
  · rw [if_pos hids] at hrun
    cases hrun
  · have he : (runTargets idf wd df today pd input preStore).isEmpty := by
      rw [hempty]
      rfl
    rw [if_neg hids, if_pos he] at hrun
    cases hrun
    exact ⟨rfl, rfl, rfl, rfl, rfl⟩

/-- C7 counterexample: a store line that fails to parse as JSON is
skipped during the retained-copy step without any counter being
incremented: the run below drops the malformed line from the store yet
finishes with an empty error counter. -/
theorem malformed_line_dropped_without_count :
    genericRun "id" none none 0 (fun _ => none) id
        (fun t => if t = 2 then ⟨some [("id", JVal.int 2)], []⟩ else ⟨none, ["404"]⟩)
        [some [("id", JVal.int 1)], some [("id", JVal.int 2)]]
        (some [none, some [("id", JVal.int 1)]])
      = some ⟨some [some [("id", JVal.int 1)], some [("id", JVal.int 2)]],
              1, 1, 1, 0, 2, [], [(1, 0, 2)]⟩
    ∧ (none : SrcLine) ∈ [none, some [("id", JVal.int 1)]]
    ∧ (none : SrcLine) ∉ [some [("id", JVal.int 1)], some [("id", JVal.int 2)]] := by
  refine ⟨rfl, List.mem_cons_self _ _, by simp⟩

/-- C7 amended: during the existing-store scan and the retained-copy
step, every line that fails to parse as JSON is skipped and never fatal,
but it is not tallied in any counter: the run error state consists
exactly of the keys produced by the per-target fetches, and both the
scan and the copy are invariant under removing unparseable lines. -/
theorem malformed_lines_skipped_uncounted
    (idf : String) (wd : Option Nat) (df : Option String) (today : Int)
    (pd : String → Option Int) (project : Jobj → Jobj) (fetch : Int → FetchOut)
    (input : List SrcLine) (preStore : Option (List SrcLine)) (out : RunOut)
    (hrun : genericRun idf wd df today pd project fetch input preStore = some out) :
    out.errors = (runTargets idf wd df today pd input preStore).foldr
        (fun t a => (fetch t).errs ++ a) []
    ∧ (∀ (due : Jobj → Bool) (store : List SrcLine),
        scanCore idf due store = scanCore idf due (store.filter Option.isSome))
    ∧ (∀ (ts : List Int) (store : List SrcLine),
        copyRetained idf ts store = copyRetained idf ts (store.filter Option.isSome)) := by
  refine ⟨?_, fun due store => scanLoop_filter_isSome idf due store _,
    fun ts store => copyRetained_filter_isSome idf ts store⟩
  rw [genericRun_eq] at hrun
  by_cases hids : (iterNdjsonIds idf input).isEmpty
  · rw [if_pos hids] at hrun
    cases hrun
  · rw [if_neg hids] at hrun
    by_cases ht : (runTargets idf wd df today pd input preStore).isEmpty
    · rw [if_pos ht] at hrun
      cases hrun
      rw [List.isEmpty_iff.mp ht]
      rfl
    · rw [if_neg ht] at hrun
      cases hrun
      exact processTargets_errs project fetch _ _

/-- C2: a refresh target whose fetch fails terminally is dropped: its
key is absent from the post-run store; and in the single-target
NotFound scenario the run counts exactly one 404 and the total line
count decreases by one relative to the pre-run store. -/
theorem failed_refresh_target_dropped
    (idf : String) (wd : Option Nat) (df : Option String) (today : Int)
    (pd : String → Option Int) (project : Jobj → Jobj) (fetch : Int → FetchOut)
    (input : List SrcLine) (preStore : Option (List SrcLine)) (out : RunOut) (k : Int)
    (hrun : genericRun idf wd df today pd project fetch input preStore = some out)
    (hcoh : ∀ t d, (fetch t).data = some d →
      asInt (olookup (project d) idf) = some t ∨ asInt (olookup (project d) idf) = none)
    (hkT : k ∈ runTargets idf wd df today pd input preStore)
    (hkFail : (fetch k).data = none) :
    (∀ post, out.postStore = some post → k ∉ storeKeys idf post)
    ∧ (runTargets idf wd df today pd input preStore = [k] →
       (fetch k).errs = ["404"] →
       (∀ l ∈ preStore.getD [], ∃ o j, l = some o ∧ asInt (olookup o idf) = some j) →
       KeyUnique idf (preStore.getD []) →
       k ∈ storeKeys idf (preStore.getD []) →
       out.errors = ["404"] ∧ (preStore.getD []).length = out.totalLines + 1) := by
  rw [genericRun_eq] at hrun
  by_cases hids : (iterNdjsonIds idf input).isEmpty
  · rw [if_pos hids] at hrun
    cases hrun
  · rw [if_neg hids] at hrun
    by_cases ht : (runTargets idf wd df today pd input preStore).isEmpty
    · rw [List.isEmpty_iff.mp ht] at hkT
      cases hkT
    · rw [if_neg ht] at hrun
      cases hrun
      constructor
      · intro post hpost
        cases hpost
        intro hmem
        rw [storeKeys, List.filterMap_append] at hmem
        rcases List.mem_append.mp hmem with hmem | hmem
        · exact copyRetained_keys_not_target idf _ k _ hmem hkT
        · rcases processTargets_keys_src idf project fetch _ k _ hmem
            with ⟨t, _, d, hd, hk⟩
          rcases hcoh t d hd with he | he
          · rw [he] at hk
            have : k = t := ((Option.some.injEq _ _).mp hk).symm
            rw [← this] at hd
            rw [hkFail] at hd
            cases hd
          · rw [he] at hk
            cases hk
      · intro h1k herrs hall hnd hkmem
        constructor
        · show (processTargets project fetch _ _).errs = ["404"]
          rw [h1k, processTargets_cons_none project fetch _ k [] hkFail,
              processTargets_nil, herrs]
          rfl
        · show (preStore.getD []).length
            = (copyRetained idf _ (preStore.getD [])).2
              + (processTargets project fetch _ _).ok + 1
          rw [h1k, processTargets_cons_none project fetch _ k [] hkFail,
              processTargets_nil, copyRetained_count]
          rw [← copyRetained_len_singleton idf k (preStore.getD []) hall hnd hkmem]
          rfl

/-! Witness instantiations: each applies its claim theorem at concrete
inputs, discharging every hypothesis there. -/

/-- Witness for the C4 theorem at a record dated day 95 with window 5
around day 100. -/
theorem refresh_window_inclusive_boundary_witness :
    ((7 : Int) ∈ (scan_existing_ndjson "id" (some 5) (some "rd") 100 wPd95
        [some wRec7]).refreshIds
      ↔ ((100 : Int) - ((5 : Nat) : Int) ≤ 95 ∧ (95 : Int) ≤ 100))
    ∧ ((95 : Int) = 100 - ((5 : Nat) : Int) →
        (7 : Int) ∈ (scan_existing_ndjson "id" (some 5) (some "rd") 100 wPd95
          [some wRec7]).refreshIds)
    ∧ ((95 : Int) = 100 - ((5 : Nat) : Int) - 1 →
        (7 : Int) ∉ (scan_existing_ndjson "id" (some 5) (some "rd") 100 wPd95
          [some wRec7]).refreshIds) :=
  refresh_window_inclusive_boundary "id" 5 "rd" 100 wPd95 [some wRec7] wRec7 7 95
    (List.mem_singleton.mpr rfl) rfl rfl
    (fun o' ho' _ => (Option.some.injEq _ _).mp (List.mem_singleton.mp ho'))

/-- Witness for the C8 theorem: a Returning Series record is refreshed. -/
theorem status_keyed_refresh_policy_witness :
    (9 : Int) ∈ (scan_existing_custom_refresh 0 (fun _ => none) [some wRecTV]).refreshIds :=
  (status_keyed_refresh_policy 0 (fun _ => none) [some wRecTV] wRecTV 9
    (List.mem_singleton.mpr rfl) rfl
    (fun o' ho' _ => (Option.some.injEq _ _).mp (List.mem_singleton.mp ho'))).1 rfl

/-- Witness for the C9 theorem at status 500. -/
theorem terminal_status_no_retry_witness :
    tmdb_request [Resp.http 500 none] [] = ⟨none, ["HTTP_" ++ toString 500], [], 1, false⟩ :=
  terminal_status_no_retry.2 500 (by decide) (by decide) (by decide) none [] []

/-- Witness for the C5 theorem: a 2-second hint sleeps 2 seconds, and
the backoff update at jitter one half multiplies by 1.75. -/
theorem rate_limit_backoff_budget_witness :
    (tmdb_request [Resp.http 429 (some (some 2))] []).sleeps.head?
      = some (min 2 MAX_BACKOFF_SECONDS)
    ∧ (3/2 ≤ 3/2 + (1/2 : ℚ) * (1/2) ∧ 3/2 + (1/2 : ℚ) * (1/2) < 2
       ∧ backoffNext 1 (1/2) = min MAX_BACKOFF_SECONDS (1 * (3/2 + (1/2 : ℚ) * (1/2)))) :=
  ⟨rate_limit_backoff_budget.1 2 [] [],
   rate_limit_backoff_budget.2.2.1 1 (1/2) (by norm_num) (by norm_num)⟩

/-- Witness for the C6 amended theorem: a payload without an imdb_id
field projects it to null. -/
theorem projector_allow_list_total_witness :
    olookup (project_movie_fields []) "imdb_id" = some JVal.null :=
  projector_allow_list_total.2.2 [] "imdb_id" (by decide) rfl

/-- Witness for the C1 theorem: the store after fetching id 3 into an
empty store has pairwise distinct keys. -/
theorem post_run_key_uniqueness_witness :
    KeyUnique "id" (wOut1.postStore.getD []) :=
  post_run_key_uniqueness "id" none none 0 (fun _ => none) id wFetchEcho
    [some wRec3] (some []) wOut1 rfl List.nodup_nil
    (fun t d hd => by
      cases hd
      exact Or.inl rfl)

/-- Witness for the C3 theorem on the same one-target run. -/
theorem run_conservation_witness :
    wOut1.totalLines = wOut1.copied + wOut1.ok
    ∧ wOut1.ok = wOut1.added + wOut1.updated
    ∧ ([some wRec3] : List SrcLine).length = wOut1.totalLines := by
  have h := run_conservation "id" none none 0 (fun _ => none) id wFetchEcho
      [some wRec3] (some []) wOut1 rfl (by decide)
  exact ⟨h.1, h.2.1, h.2.2 [some wRec3] rfl⟩

/-- Witness for the C10 theorem on a run whose only candidate already
exists and is not due. -/
theorem empty_target_run_frame_witness :
    wOutE.postStore = some [some wRec3] ∧ wOutE.added = 0 ∧ wOutE.updated = 0
    ∧ wOutE.errors = []
    ∧ wOutE.log = [(0, 0,
        (scan_existing_ndjson "id" none none 0 (fun _ => none)
          ((some [some wRec3]).getD [])).keptLines)] :=
  empty_target_run_frame "id" none none 0 (fun _ => none) id wFetchEcho
    [some wRec3] (some [some wRec3]) wOutE rfl rfl

/-- Witness for the C7 amended theorem on the one-target run. -/
theorem malformed_lines_skipped_uncounted_witness :
    wOut1.errors = (runTargets "id" none none 0 (fun _ => none)
        [some wRec3] (some [])).foldr (fun t a => (wFetchEcho t).errs ++ a) [] :=
  (malformed_lines_skipped_uncounted "id" none none 0 (fun _ => none) id wFetchEcho
    [some wRec3] (some []) wOut1 rfl).1

/-- Witness for the C2 theorem on the single-target NotFound scenario. -/
theorem failed_refresh_target_dropped_witness :
    ((5 : Int) ∉ storeKeys "id" [])
    ∧ wOutB.errors = ["404"]
    ∧ ([some wRecD] : List SrcLine).length = wOutB.totalLines + 1 := by
  have h := failed_refresh_target_dropped "id" (some 1) (some "d") 10 wPd id wFetch404
      [some wRecD] (some [some wRecD]) wOutB 5 rfl
      (fun t d hd => nomatch hd) (List.mem_singleton.mpr rfl) rfl
  have h2 := h.2 rfl rfl
      (fun l hl => by
        rcases List.mem_singleton.mp hl with rfl
        exact ⟨wRecD, 5, rfl, rfl⟩)
      (show (storeKeys "id" [some wRecD]).Nodup by decide)
      (List.mem_singleton.mpr rfl)
  exact ⟨h.1 [] rfl, h2.1, h2.2⟩
